import Mathlib

/-!
Shallow embedding of `src/sheet_manager/data_model/piece.py` (class `Piece`).

Paths are modelled as lists of components (so `os.path.join(a, b)` for a
simple name `b` is `a ++ [b]`); the filesystem is modelled as the lists of
existing file paths and directory paths.  Python exceptions are modelled by
an explicit error type; every stateful operation returns the post-state it
leaves behind together with an optional error, which matches the observable
state of the Python object after an exception propagates out of a method.
-/

abbrev FsPath := List String

structure FS where
  files : List FsPath
  dirs : List FsPath
deriving DecidableEq, Repr

deriving instance DecidableEq for Except

/-- `os.path.isfile`. -/
def FS.isfile (fs : FS) (p : FsPath) : Prop := p ∈ fs.files

/-- `os.path.isdir`. -/
def FS.isdir (fs : FS) (p : FsPath) : Prop := p ∈ fs.dirs

instance (fs : FS) (p : FsPath) : Decidable (fs.isfile p) :=
  inferInstanceAs (Decidable (p ∈ fs.files))

instance (fs : FS) (p : FsPath) : Decidable (fs.isdir p) :=
  inferInstanceAs (Decidable (p ∈ fs.dirs))

/-- Errors raised by the code.  Each constructor records the data the Python
code interpolates into the corresponding exception message.
`invalidAuthority` is the `ValueError` for an unsupported authority format;
`missingAuthorityEncoding` is the `SheetManagerDBError` raised when the
requested authority format has no encoding; note that the code interpolates
`self.encodings.values()` (the file paths) into that message, recorded here
in the `availableValues` field. -/
inductive Err where
  | collectionNotFound (root : FsPath)
  | pieceNotFound (name : String) (root : FsPath)
  | invalidAuthority (fmt : String)
  | missingAuthorityEncoding (pieceName : String) (root : FsPath) (fmt : String)
      (availableValues : List FsPath)
  | performanceNotFound (pieceName : String) (perfName : String)
      (available : List String)
  | performanceExists (pieceName : String) (perfName : String)
  | fileExists (p : FsPath)
  | sourceFileNotFound (p : FsPath)
  | isADirectory (p : FsPath)
  | notADirectory (p : FsPath)
  | ioOnClosedFile
deriving DecidableEq, Repr

/-- `os.mkdir`: fails if the path already exists (as file or directory). -/
def mkdir (fs : FS) (p : FsPath) : Except Err FS :=
  if fs.isdir p ∨ fs.isfile p then .error (.fileExists p)
  else .ok ⟨fs.files, p :: fs.dirs⟩

/-- `shutil.copyfile src dst`: fails if `src` is not a file or `dst` is a
directory; otherwise (over)writes the file at `dst`. -/
def copyfile (fs : FS) (src dst : FsPath) : Except Err FS :=
  if ¬ fs.isfile src then .error (.sourceFileNotFound src)
  else if fs.isdir dst then .error (.isADirectory dst)
  else .ok ⟨if dst ∈ fs.files then fs.files else dst :: fs.files, fs.dirs⟩

/-- `shutil.rmtree p`: fails if `p` is not a directory; otherwise removes
`p` together with everything below it. -/
def rmtree (fs : FS) (p : FsPath) : Except Err FS :=
  if ¬ fs.isdir p then .error (.notADirectory p)
  else .ok ⟨fs.files.filter (fun q => ! p.isPrefixOf q),
            fs.dirs.filter (fun q => ! p.isPrefixOf q)⟩

/-- The filesystem left by a successful `shutil.rmtree p`. -/
def rmtreeFS (fs : FS) (p : FsPath) : FS :=
  ⟨fs.files.filter (fun q => ! p.isPrefixOf q),
   fs.dirs.filter (fun q => ! p.isPrefixOf q)⟩

/-- `os.listdir d`: the names of the immediate children of `d`, files and
directories alike (Python's `os.listdir` does not distinguish them). -/
def FS.listdir (fs : FS) (d : FsPath) : List String :=
  ((fs.files ++ fs.dirs).filterMap
    (fun p => if p.dropLast = d then p.getLast? else none)).dedup

/-- The basename of a path (its last component). -/
def lastComponent (p : FsPath) : String := p.getLast?.getD ""

/-- The extension part of `os.path.splitext` applied to a basename: the
suffix starting at the last dot, provided some earlier character of the
basename is not a dot (so `".bashrc"` has no extension). -/
def splitextExt (s : String) : String :=
  let cs := s.toList
  match ((List.range cs.length).filter (fun i => cs.getD i ' ' == '.')).getLast? with
  | none => ""
  | some i =>
      if (List.range i).any (fun j => cs.getD j ' ' != '.') then
        String.mk (cs.drop i)
      else ""

/-- `os.path.splitext(p)[-1]` for a path given by components: the extension
is taken from the basename. -/
def extOf (p : FsPath) : String := splitextExt (lastComponent p)

/-- `midi += 'i'` in `collect_encodings` appends to the final component of
the path string. -/
def appendToLast (p : FsPath) (s : String) : FsPath :=
  p.dropLast ++ [(p.getLast?.getD "") ++ s]

/-- The result of `Piece.load_metadata`.  When `meta.yml` is absent the code
returns `dict()` (`dict0`).  When it is present the code returns
`yaml.load_all(hdl)`; PyYAML's `load_all` is a lazy generator over the open
handle `hdl`, and the enclosing `with` block closes the handle before the
method returns, so the returned generator holds a closed handle — recorded
in the `handleOpen` field, which is the state of the handle at the moment
the generator escapes the `with` block. -/
inductive MetaResult where
  | dict0
  | docs (handleOpen : Bool)
deriving DecidableEq, Repr

/-- Consuming (iterating) the value returned by `load_metadata`: reading
from a generator whose underlying handle is closed raises `ValueError`
(I/O operation on closed file). -/
def force_metadata : MetaResult → Except Err Unit
  | .dict0 => .ok ()
  | .docs true => .ok ()
  | .docs false => .error .ioOnClosedFile

/-- `Piece.AVAILABLE_AUTHORITIES`. -/
def AVAILABLE_AUTHORITIES : List String := ["mxml", "ly", "midi", "mei"]

/-- `Piece.load_metadata` (lines 226-237): if `folder/meta.yml` is not a
file, log a warning and return the empty dict; otherwise open the file,
build the lazy `yaml.load_all` generator, close the handle on `with`-block
exit and return the generator (with its handle now closed). -/
def load_metadata (fs : FS) (folder : FsPath) : MetaResult :=
  if ¬ fs.isfile (folder ++ ["meta.yml"]) then .dict0
  else .docs false

/-- `Piece.collect_encodings` (lines 201-224). -/
def collect_encodings (fs : FS) (folder : FsPath) (name : String) :
    List (String × FsPath) :=
  let encodings : List (String × FsPath) := []
  let mxml := folder ++ [name ++ ".xml"]
  let encodings := if fs.isfile mxml then encodings ++ [("mxml", mxml)] else encodings
  let ly := folder ++ [name ++ ".ly"]
  let encodings := if fs.isfile ly then encodings ++ [("ly", ly)] else encodings
  let midi := folder ++ [name ++ ".mid"]
  let midi := if ¬ fs.isfile midi then appendToLast midi "i" else midi
  let encodings := if fs.isfile midi then encodings ++ [("midi", midi)] else encodings
  let mei := folder ++ [name ++ ".mei"]
  let encodings := if fs.isfile mei then encodings ++ [("mei", mei)] else encodings
  encodings

/-- Keys of an association list (Python `dict` keys, in insertion order). -/
def keys {β : Type} (l : List (String × β)) : List String := l.map Prod.fst

/-- `Piece.collect_performances` (lines 183-190): a dict comprehension over
`os.listdir(self.performance_dir)`. -/
def collect_performances (fs : FS) (performance_dir : FsPath) :
    List (String × FsPath) :=
  (fs.listdir performance_dir).map (fun p => (p, performance_dir ++ [p]))

/-- `Piece.collect_scores` (lines 192-199): same shape over `score_dir`. -/
def collect_scores (fs : FS) (score_dir : FsPath) : List (String × FsPath) :=
  (fs.listdir score_dir).map (fun s => (s, score_dir ++ [s]))

/-- The in-memory attributes of a `Piece` object. -/
structure PieceState where
  name : String
  folder : FsPath
  collection_root : FsPath
  performance_dir : FsPath
  score_dir : FsPath
  metadata : MetaResult
  encodings : List (String × FsPath)
  authority_format : String
  authority : FsPath
  performances : List (String × FsPath)
  scores : List (String × FsPath)
deriving DecidableEq, Repr

/-- `Piece._set_authority` (lines 164-181).  Returns the resulting state
together with the raised error, if any; on either error path no attribute
has been assigned yet, so the state is returned unchanged. -/
def set_authority (s : PieceState) (authority_format : String) :
    PieceState × Option Err :=
  if authority_format ∉ AVAILABLE_AUTHORITIES then
    (s, some (.invalidAuthority authority_format))
  else
    match s.encodings.lookup authority_format with
    | none =>
        (s, some (.missingAuthorityEncoding s.name s.collection_root
          authority_format (s.encodings.map Prod.snd)))
    | some p =>
        ({s with authority_format := authority_format, authority := p}, none)

/-- One `if not isdir: mkdir` step of `Piece._ensure_piece_structure`.
On an `mkdir` failure the filesystem is returned as it was. -/
def ensure_dir (fs : FS) (d : FsPath) : FS × Option Err :=
  if ¬ fs.isdir d then
    match mkdir fs d with
    | .error e => (fs, some e)
    | .ok fs1 => (fs1, none)
  else (fs, none)

/-- `Piece._ensure_piece_structure` (lines 120-125). -/
def ensure_piece_structure (s : PieceState) (fs : FS) : FS × Option Err :=
  match ensure_dir fs s.performance_dir with
  | (fs1, some e) => (fs1, some e)
  | (fs1, none) => ensure_dir fs1 s.score_dir

/-- `Piece.update` (lines 154-162).  Note the order: `self.encodings` is
reassigned first, then `_set_authority` runs (and may raise), and only then
are the directories ensured and `performances`/`scores` re-collected.  When
an intermediate step raises, the state mutated so far is kept. -/
def update (s : PieceState) (fs : FS) : (PieceState × FS) × Option Err :=
  let s1 := {s with encodings := collect_encodings fs s.folder s.name}
  let r := set_authority s1 s.authority_format
  match r.2 with
  | some e => ((r.1, fs), some e)
  | none =>
    let s2 := r.1
    let en := ensure_piece_structure s2 fs
    match en.2 with
    | some e => ((s2, en.1), some e)
    | none =>
        (({s2 with performances := collect_performances en.1 s2.performance_dir,
                   scores := collect_scores en.1 s2.score_dir}, en.1), none)

/-- `Piece.__init__` (lines 66-118).  Returns the filesystem after the call
(the `performances`/`scores` directories may have been created even when a
later step fails) and either the constructed state or the raised error. -/
def Piece.init (fs : FS) (name : String) (root : FsPath)
    (authority_format : String) : FS × Except Err PieceState :=
  if ¬ fs.isdir root then (fs, .error (.collectionNotFound root))
  else
    let piece_folder := root ++ [name]
    if ¬ fs.isdir piece_folder then (fs, .error (.pieceNotFound name root))
    else if authority_format ∉ AVAILABLE_AUTHORITIES then
      (fs, .error (.invalidAuthority authority_format))
    else
      let performance_dir := piece_folder ++ ["performances"]
      let score_dir := piece_folder ++ ["scores"]
      let e1 := ensure_dir fs performance_dir
      match e1.2 with
      | some e => (e1.1, .error e)
      | none =>
        let e2 := ensure_dir e1.1 score_dir
        match e2.2 with
        | some e => (e2.1, .error e)
        | none =>
          let fs2 := e2.1
          let metadata := load_metadata fs2 piece_folder
          let encodings := collect_encodings fs2 piece_folder name
          match encodings.lookup authority_format with
          | none =>
              (fs2, .error (.missingAuthorityEncoding name root
                authority_format (encodings.map Prod.snd)))
          | some authority =>
              (fs2, .ok
                { name := name
                  folder := piece_folder
                  collection_root := root
                  performance_dir := performance_dir
                  score_dir := score_dir
                  metadata := metadata
                  encodings := encodings
                  authority_format := authority_format
                  authority := authority
                  performances := collect_performances fs2 performance_dir
                  scores := collect_scores fs2 score_dir })

structure Performance where
  dir : FsPath
  piece_name : String
deriving DecidableEq, Repr

/-- Modelled from the spec: the `Performance` collaborator constructor
(`sheet_manager.data_model.performance.Performance`, whose source is not
under `src/`).  Per the collaborator contract it receives the performance
directory path and the piece name and returns a handle; its internal
folder-structure validation is not specified further and is modelled as
always succeeding. -/
def Performance.construct (dir : FsPath) (piece_name : String) : Performance :=
  ⟨dir, piece_name⟩

/-- `Piece.load_performance` (lines 134-148): `update` first, then look the
name up in the (now fresh) `performances` index. -/
def load_performance (s : PieceState) (fs : FS) (performance_name : String) :
    (PieceState × FS) × Except Err Performance :=
  let u := update s fs
  match u.2 with
  | some e => (u.1, .error e)
  | none =>
    let s1 := u.1.1
    match s1.performances.lookup performance_name with
    | none =>
        (u.1, .error (.performanceNotFound s1.name performance_name
          (keys s1.performances)))
    | some d => (u.1, .ok (Performance.construct d s1.name))

/-- `Piece.remove_performance` (lines 244-253): `update`; if the name is
not in the fresh index, log a warning and return; otherwise `rmtree` the
performance directory and `update` again. -/
def remove_performance (s : PieceState) (fs : FS) (name : String) :
    (PieceState × FS) × Option Err :=
  let u := update s fs
  match u.2 with
  | some e => (u.1, some e)
  | none =>
    let s1 := u.1.1
    let fs1 := u.1.2
    match s1.performances.lookup name with
    | none => ((s1, fs1), none)
    | some d =>
      match rmtree fs1 d with
      | .error e => ((s1, fs1), some e)
      | .ok fs2 => update s1 fs2

/-- The `if midi_file:` block of `Piece.add_performance`. -/
def copy_midi (fs : FS) (new_performance_dir : FsPath) (name : String) :
    Option FsPath → FS × Option Err
  | none => (fs, none)
  | some midi_file =>
    match copyfile fs midi_file
        (new_performance_dir ++ [name ++ splitextExt (lastComponent midi_file)]) with
    | .error e => (fs, some e)
    | .ok fs1 => (fs1, none)

/-- The body of `Piece.add_performance` after the overwrite check (lines
285-304): `mkdir`, copy the audio file, optionally copy the MIDI file,
`update`, then test-load the performance (discarding the result). -/
def add_performance_body (s : PieceState) (fs : FS) (name : String)
    (audio_file : FsPath) (midi_file : Option FsPath) :
    (PieceState × FS) × Option Err :=
  let new_performance_dir := s.performance_dir ++ [name]
  match mkdir fs new_performance_dir with
  | .error e => ((s, fs), some e)
  | .ok fs1 =>
    let audio_fmt := splitextExt (lastComponent audio_file)
    let perf_audio_filename := new_performance_dir ++ [name ++ audio_fmt]
    match copyfile fs1 audio_file perf_audio_filename with
    | .error e => ((s, fs1), some e)
    | .ok fs2 =>
      let cm := copy_midi fs2 new_performance_dir name midi_file
      match cm.2 with
      | some e => ((s, cm.1), some e)
      | none =>
        let u := update s cm.1
        match u.2 with
        | some e => (u.1, some e)
        | none =>
          let lp := load_performance u.1.1 u.1.2 name
          match lp.2 with
          | .error e => (lp.1, some e)
          | .ok _ => (lp.1, none)

/-- `Piece.add_performance` (lines 255-304).  The membership test uses the
cached `self.performances` index.  In the overwrite branch the code logs a
warning and sleeps five seconds (no state effect) before removing the
existing performance. -/
def add_performance (s : PieceState) (fs : FS) (name : String)
    (audio_file : FsPath) (midi_file : Option FsPath) (overwrite : Bool) :
    (PieceState × FS) × Option Err :=
  if name ∈ keys s.performances then
    if overwrite then
      let r := remove_performance s fs name
      match r.2 with
      | some e => (r.1, some e)
      | none => add_performance_body r.1.1 r.1.2 name audio_file midi_file
    else ((s, fs), some (.performanceExists s.name name))
  else add_performance_body s fs name audio_file midi_file

/-- The loop of `Piece.clear_performances` over a list of names. -/
def clear_go (ns : List String) (s : PieceState) (fs : FS) :
    (PieceState × FS) × Option Err :=
  match ns with
  | [] => ((s, fs), none)
  | n :: rest =>
    let r := remove_performance s fs n
    match r.2 with
    | some e => (r.1, some e)
    | none => clear_go rest r.1.1 r.1.2

/-- `Piece.clear_performances` (lines 239-242): `for p in self.performances:
self.remove_performance(p)`.  The `for` statement captures the dict object
bound to `self.performances` at loop entry; `remove_performance` only ever
reassigns `self.performances` to a fresh dict (it never mutates the old
one), so the loop iterates exactly over the snapshot of the keys taken at
call time. -/
def clear_performances (s : PieceState) (fs : FS) :
    (PieceState × FS) × Option Err :=
  clear_go (keys s.performances) s fs

/-- An externally observable operation for the authority-invariant claims:
either an explicit `_set_authority(fmt)` call or an `update()` call made
when the on-disk state is `fs` (out-of-band filesystem changes between
calls are modelled by supplying a different `fs` to each `update`). -/
inductive Op where
  | setAuth (fmt : String)
  | upd (fs : FS)
deriving DecidableEq, Repr

/-- The piece state after one operation (the state a caller observes even
when the call raised). -/
def step (s : PieceState) : Op → PieceState × Option Err
  | .setAuth fmt => set_authority s fmt
  | .upd fs => ((update s fs).1.1, (update s fs).2)

/-- The piece state after a sequence of operations. -/
def runOps (s : PieceState) : List Op → PieceState
  | [] => s
  | op :: ops => runOps (step s op).1 ops

/-- Holds when an operation is not a failing `update` call. -/
def headOk (s : PieceState) : Op → Prop
  | .setAuth _ => True
  | .upd fs => (update s fs).2 = none

instance (s : PieceState) (op : Op) : Decidable (headOk s op) := by
  cases op with
  | setAuth fmt => exact .isTrue trivial
  | upd fs => exact inferInstanceAs (Decidable ((update s fs).2 = none))

/-- Holds when no `update` call in the sequence fails. -/
def updatesOk (s : PieceState) : List Op → Prop
  | [] => True
  | op :: ops => headOk s op ∧ updatesOk (step s op).1 ops

instance updatesOkDec (s : PieceState) :
    (ops : List Op) → Decidable (updatesOk s ops)
  | [] => .isTrue trivial
  | op :: ops =>
      have : Decidable (updatesOk (step s op).1 ops) := updatesOkDec _ ops
      inferInstanceAs (Decidable (headOk s op ∧ _))

/-- The authority invariant (spec P1/I2): the authority format is one of
the enumerated formats and `encodings[authority_format] == authority`. -/
def authorityInv (s : PieceState) : Prop :=
  s.authority_format ∈ AVAILABLE_AUTHORITIES ∧
  s.encodings.lookup s.authority_format = some s.authority

instance (s : PieceState) : Decidable (authorityInv s) :=
  inferInstanceAs (Decidable (_ ∈ _ ∧ _ = _))

/-- A collection with one piece `bach` whose only encoding is `bach.ly`. -/
def fsC1a : FS := ⟨[["col", "bach", "bach.ly"]], [["col"], ["col", "bach"]]⟩

/-- The same collection after `bach.ly` has been deleted out-of-band (the
`performances`/`scores` directories were created during construction). -/
def fsC1b : FS :=
  ⟨[], [["col", "bach", "scores"], ["col", "bach", "performances"],
        ["col"], ["col", "bach"]]⟩

/-- The piece state constructed by `Piece.init fsC1a "bach" ["col"] "ly"`. -/
def sC1 : PieceState :=
  { name := "bach", folder := ["col", "bach"], collection_root := ["col"],
    performance_dir := ["col", "bach", "performances"],
    score_dir := ["col", "bach", "scores"], metadata := .dict0,
    encodings := [("ly", ["col", "bach", "bach.ly"])],
    authority_format := "ly", authority := ["col", "bach", "bach.ly"],
    performances := [], scores := [] }

/-- A collection with one piece `bach_bwv846` having only `ly` and `midi`
encoding files (the scenario used for the missing-authority claim). -/
def fsC4 : FS :=
  ⟨[["col", "bach_bwv846", "bach_bwv846.ly"],
    ["col", "bach_bwv846", "bach_bwv846.mid"]],
   [["col"], ["col", "bach_bwv846"]]⟩

/-- A filesystem whose `performances` directory contains a subdirectory
`take1` and a plain file `stray.txt`. -/
def fsC5 : FS :=
  ⟨[["col", "bach", "performances", "stray.txt"]],
   [["col"], ["col", "bach"], ["col", "bach", "performances"],
    ["col", "bach", "performances", "take1"]]⟩

/-- A collection with piece `bach` (authority `ly`) plus audio and MIDI
source files in `tmp`, used by the add-performance round-trip witness. -/
def fsC7 : FS :=
  ⟨[["col", "bach", "bach.ly"], ["tmp", "rec.wav"], ["tmp", "rec.mid"]],
   [["col"], ["col", "bach"], ["col", "bach", "performances"],
    ["col", "bach", "scores"]]⟩

/-- A piece state whose index already contains performance `take1`. -/
def sC8 : PieceState :=
  { name := "bach", folder := ["col", "bach"], collection_root := ["col"],
    performance_dir := ["col", "bach", "performances"],
    score_dir := ["col", "bach", "scores"], metadata := .dict0,
    encodings := [("ly", ["col", "bach", "bach.ly"])],
    authority_format := "ly", authority := ["col", "bach", "bach.ly"],
    performances := [("take1", ["col", "bach", "performances", "take1"])],
    scores := [] }

/-- The on-disk state matching `sC8`: `take1` exists with one old file, and
a fresh audio source lives in `tmp`. -/
def fsC8 : FS :=
  ⟨[["col", "bach", "bach.ly"],
    ["col", "bach", "performances", "take1", "take1.wav"],
    ["tmp", "new.flac"]],
   [["col"], ["col", "bach"], ["col", "bach", "performances"],
    ["col", "bach", "scores"], ["col", "bach", "performances", "take1"]]⟩

/-- A piece state with two known performances `take1` and `take2`. -/
def sC9 : PieceState :=
  { name := "bach", folder := ["col", "bach"], collection_root := ["col"],
    performance_dir := ["col", "bach", "performances"],
    score_dir := ["col", "bach", "scores"], metadata := .dict0,
    encodings := [("ly", ["col", "bach", "bach.ly"])],
    authority_format := "ly", authority := ["col", "bach", "bach.ly"],
    performances := [("take1", ["col", "bach", "performances", "take1"]),
                     ("take2", ["col", "bach", "performances", "take2"])],
    scores := [] }

/-- The on-disk state matching `sC9`: both performances are subdirectories
(one containing a file), and nothing else is inside `performances`. -/
def fsC9 : FS :=
  ⟨[["col", "bach", "bach.ly"],
    ["col", "bach", "performances", "take1", "take1.wav"]],
   [["col"], ["col", "bach"], ["col", "bach", "performances"],
    ["col", "bach", "scores"], ["col", "bach", "performances", "take1"],
    ["col", "bach", "performances", "take2"]]⟩

/-! ### Lemmas and theorems -/

lemma dropLast_getLast?_iff {p d : FsPath} {x : String} :
    (p.dropLast = d ∧ p.getLast? = some x) ↔ p = d ++ [x] := by
  constructor
  · rintro ⟨h1, h2⟩
    have hne : p ≠ [] := by rintro rfl; simp at h2
    have h3 := List.dropLast_concat_getLast hne
    rw [List.getLast?_eq_getLast p hne, Option.some_inj] at h2
    rw [← h3, h1, h2]
  · rintro rfl
    exact ⟨List.dropLast_concat, List.getLast?_concat d⟩

lemma mem_listdir {fs : FS} {d : FsPath} {x : String} :
    x ∈ fs.listdir d ↔ fs.isfile (d ++ [x]) ∨ fs.isdir (d ++ [x]) := by
  unfold FS.listdir FS.isfile FS.isdir
  rw [List.mem_dedup, List.mem_filterMap]
  constructor
  · rintro ⟨p, hp, hf⟩
    by_cases h : p.dropLast = d
    · rw [if_pos h] at hf
      rw [dropLast_getLast?_iff.mp ⟨h, hf⟩] at hp
      simpa using hp
    · rw [if_neg h] at hf; cases hf
  · intro h
    refine ⟨d ++ [x], by simpa using h, ?_⟩
    rw [if_pos (by simp), List.getLast?_concat]

lemma listdir_nodup (fs : FS) (d : FsPath) : (fs.listdir d).Nodup :=
  List.nodup_dedup _

lemma lookup_map_self (l : List String) (f : String → FsPath) (n : String) :
    ((l.map (fun p => (p, f p))).lookup n) =
      if n ∈ l then some (f n) else none := by
  induction l with
  | nil => simp
  | cons a t ih =>
    by_cases h : n = a
    · subst h; simp
    · have hb : (n == a) = false := by simpa using h
      simp [List.lookup_cons, hb, List.mem_cons, h, ih]

/-- C3: encoding discovery for piece `P` in folder `F` finds exactly
`mxml ↦ F/P.xml`, `ly ↦ F/P.ly`, `midi ↦ F/P.mid` with a single fallback to
`F/P.midi` (`F/P.mid` winning when both exist), and `mei ↦ F/P.mei`, each
entry present exactly when the file exists; kinds with no matching file are
absent, no other key occurs, keys are not duplicated, and (by the type of
`collect_encodings`, which only reads `fs`) the function performs no
writes and raises no error. -/
theorem collect_encodings_spec (fs : FS) (F : FsPath) (P : String) :
    ((collect_encodings fs F P).lookup "mxml" =
        if fs.isfile (F ++ [P ++ ".xml"]) then some (F ++ [P ++ ".xml"]) else none)
    ∧ ((collect_encodings fs F P).lookup "ly" =
        if fs.isfile (F ++ [P ++ ".ly"]) then some (F ++ [P ++ ".ly"]) else none)
    ∧ ((collect_encodings fs F P).lookup "midi" =
        if fs.isfile (F ++ [P ++ ".mid"]) then some (F ++ [P ++ ".mid"])
        else if fs.isfile (F ++ [P ++ ".midi"]) then some (F ++ [P ++ ".midi"])
        else none)
    ∧ ((collect_encodings fs F P).lookup "mei" =
        if fs.isfile (F ++ [P ++ ".mei"]) then some (F ++ [P ++ ".mei"]) else none)
    ∧ (∀ k ∈ keys (collect_encodings fs F P), k ∈ AVAILABLE_AUTHORITIES)
    ∧ (keys (collect_encodings fs F P)).Nodup := by
  have hmid : appendToLast (F ++ [P ++ ".mid"]) "i" = F ++ [P ++ ".midi"] := by
    unfold appendToLast
    rw [List.dropLast_concat, List.getLast?_concat]
    have h2 : (".mid" ++ "i" : String) = ".midi" := by decide
    simp only [Option.getD_some, String.append_assoc, h2]
  simp only [collect_encodings]
  rw [hmid]
  split_ifs <;>
    simp_all [List.lookup_append, List.lookup_cons, keys, AVAILABLE_AUTHORITIES]

/-- C2: `_set_authority(fmt)` either succeeds and updates
`authority_format` and `authority` together to the consistent new pair, or
fails (with the `ValueError` when `fmt` is outside the enumerated set, with
the missing-authority `SheetManagerDBError` when `fmt` has no entry in the
current encodings) and leaves the state, in particular `authority_format`
and `authority`, exactly as it was before the call. -/
theorem set_authority_trichotomy (s : PieceState) (fmt : String) :
    (fmt ∉ AVAILABLE_AUTHORITIES ∧
      set_authority s fmt = (s, some (Err.invalidAuthority fmt))) ∨
    (fmt ∈ AVAILABLE_AUTHORITIES ∧ s.encodings.lookup fmt = none ∧
      set_authority s fmt = (s, some (Err.missingAuthorityEncoding s.name
        s.collection_root fmt (s.encodings.map Prod.snd)))) ∨
    (∃ p, fmt ∈ AVAILABLE_AUTHORITIES ∧ s.encodings.lookup fmt = some p ∧
      set_authority s fmt =
        ({s with authority_format := fmt, authority := p}, none)) := by
  by_cases h : fmt ∈ AVAILABLE_AUTHORITIES
  · cases hl : s.encodings.lookup fmt with
    | none =>
        refine .inr (.inl ⟨h, rfl, ?_⟩)
        unfold set_authority
        rw [if_neg (not_not_intro h), hl]
    | some p =>
        refine .inr (.inr ⟨p, h, rfl, ?_⟩)
        unfold set_authority
        rw [if_neg (not_not_intro h), hl]
  · refine .inl ⟨h, ?_⟩
    unfold set_authority
    rw [if_pos h]

lemma set_authority_snd_none {s : PieceState} {fmt : String}
    (h : (set_authority s fmt).2 = none) :
    fmt ∈ AVAILABLE_AUTHORITIES ∧ ∃ p, s.encodings.lookup fmt = some p ∧
      (set_authority s fmt).1 = {s with authority_format := fmt, authority := p} := by
  unfold set_authority at h ⊢
  by_cases hm : fmt ∈ AVAILABLE_AUTHORITIES
  · rw [if_neg (not_not_intro hm)] at h ⊢
    cases hl : s.encodings.lookup fmt with
    | none => rw [hl] at h; simp at h
    | some p => exact ⟨hm, p, rfl, rfl⟩
  · rw [if_pos hm] at h
    cases h

lemma set_authority_inv {s : PieceState} (fmt : String)
    (h : authorityInv s) : authorityInv (set_authority s fmt).1 := by
  by_cases hm : fmt ∈ AVAILABLE_AUTHORITIES
  · cases hl : s.encodings.lookup fmt with
    | none =>
        unfold set_authority
        rw [if_neg (not_not_intro hm), hl]
        exact h
    | some p =>
        unfold set_authority
        rw [if_neg (not_not_intro hm), hl]
        exact ⟨hm, hl⟩
  · unfold set_authority
    rw [if_pos hm]
    exact h

lemma update_inv {s : PieceState} {fs : FS}
    (h : (update s fs).2 = none) : authorityInv (update s fs).1.1 := by
  simp only [update] at h ⊢
  set r := set_authority
    {s with encodings := collect_encodings fs s.folder s.name}
    s.authority_format with hr
  cases hro : r.2 with
  | some e => rw [hro] at h; simp at h
  | none =>
    rw [hro] at h
    dsimp only at h ⊢
    set en := ensure_piece_structure r.1 fs with hen
    cases heo : en.2 with
    | some e => rw [heo] at h; simp at h
    | none =>
      rw [heo] at h
      dsimp only at h ⊢
      have h2 : (set_authority
          {s with encodings := collect_encodings fs s.folder s.name}
          s.authority_format).2 = none := by rw [← hr]; exact hro
      obtain ⟨hm, p, hl, hs1⟩ := set_authority_snd_none h2
      have hr1 : r.1 = {{s with encodings := collect_encodings fs s.folder s.name}
          with authority_format := s.authority_format, authority := p} := by
        rw [hr]; exact hs1
      rw [hr1]
      exact ⟨hm, hl⟩

/-- C1 (amended): for every sequence of `_set_authority` and `update`
operations on a piece state satisfying the authority invariant, the
invariant (`authority_format` is an enumerated format, is a key of
`encodings`, and `encodings[authority_format] == authority`) holds after
every prefix of the sequence, provided every `update` call in the sequence
succeeds.  (The original claim, over arbitrary sequences, fails: a failed
`update` leaves the invariant broken — see the counterexample.) -/
theorem authority_invariant_trace (ops : List Op) (s : PieceState)
    (h : authorityInv s) (hok : updatesOk s ops) :
    authorityInv (runOps s ops) := by
  induction ops generalizing s with
  | nil => exact h
  | cons op rest ih =>
    obtain ⟨h1, h2⟩ := hok
    refine ih (step s op).1 ?_ h2
    cases op with
    | setAuth fmt => exact set_authority_inv fmt h
    | upd fs => exact update_inv h1

/-- Witness for the amended C1 theorem: a concrete constructed piece, a
concrete trace (a successful `_set_authority` re-selection followed by a
successful `update`), and the invariant evaluated at the end. -/
theorem authority_invariant_trace_witness :
    authorityInv sC1 ∧ updatesOk sC1 [Op.setAuth "ly", Op.upd fsC1a] ∧
      authorityInv (runOps sC1 [Op.setAuth "ly", Op.upd fsC1a]) :=
  ⟨by decide, by decide,
    authority_invariant_trace [Op.setAuth "ly", Op.upd fsC1a] sC1
      (by decide) (by decide)⟩

/-- C1 counterexample: on the constructed piece `sC1` (authority `ly`),
deleting `bach.ly` out-of-band and calling `update` leaves a state whose
`authority_format` is no longer a key of `encodings`: at that point
`authorityFormat` is readable but the claimed invariant is false, so the
invariant does not hold for every sequence of `setAuthority`/`update`
operations. -/
theorem authority_invariant_counterexample :
    (Piece.init fsC1a "bach" ["col"] "ly").2 = .ok sC1 ∧
    authorityInv sC1 ∧
    ¬ authorityInv (runOps sC1 [Op.upd fsC1b]) := by decide

lemma isfile_iff (fs : FS) (p : FsPath) : fs.isfile p ↔ p ∈ fs.files :=
  Iff.rfl

lemma ensure_dir_of_isdir {fs : FS} {d : FsPath} (h : fs.isdir d) :
    ensure_dir fs d = (fs, none) := by
  unfold ensure_dir
  rw [if_neg (not_not_intro h)]

lemma ensure_dir_none {fs : FS} {d : FsPath} (h : ¬ fs.isfile d) :
    (ensure_dir fs d).2 = none := by
  unfold ensure_dir
  by_cases hd : fs.isdir d
  · rw [if_neg (not_not_intro hd)]
  · rw [if_pos hd]
    unfold mkdir
    rw [if_neg (fun hc => hc.elim hd h)]

lemma ensure_dir_files (fs : FS) (d : FsPath) :
    (ensure_dir fs d).1.files = fs.files := by
  unfold ensure_dir mkdir
  by_cases hd : fs.isdir d
  · rw [if_neg (not_not_intro hd)]
  · rw [if_pos hd]
    by_cases hc : fs.isdir d ∨ fs.isfile d
    · rw [if_pos hc]
    · rw [if_neg hc]

lemma collect_encodings_files_eq {fs1 fs2 : FS} (h : fs1.files = fs2.files)
    (F : FsPath) (P : String) :
    collect_encodings fs1 F P = collect_encodings fs2 F P := by
  simp only [collect_encodings, isfile_iff, h]

lemma set_authority_missing {s : PieceState} {fmt : String}
    (hm : fmt ∈ AVAILABLE_AUTHORITIES) (hl : s.encodings.lookup fmt = none) :
    set_authority s fmt = (s, some (.missingAuthorityEncoding s.name
      s.collection_root fmt (s.encodings.map Prod.snd))) := by
  unfold set_authority
  rw [if_neg (not_not_intro hm), hl]

lemma collect_encodings_values_isfile {fs : FS} {F : FsPath} {P : String}
    {p : FsPath} (h : p ∈ (collect_encodings fs F P).map Prod.snd) :
    fs.isfile p := by
  simp only [collect_encodings] at h
  split_ifs at h <;> simp_all <;> aesop

lemma not_mem_keys_of_lookup_none {l : List (String × FsPath)} {k : String}
    (h : l.lookup k = none) : k ∉ keys l := by
  rw [List.lookup_eq_none_iff] at h
  intro hk
  simp only [keys, List.mem_map] at hk
  obtain ⟨pr, hpr, rfl⟩ := hk
  have hfalse := h pr hpr
  simp at hfalse

/-- C4 (amended): when construction is given an authority format that is in
the enumerated set but is not a key of the discovered encodings, it fails
with the missing-authority `SheetManagerDBError` whose diagnostic names the
requested format and the list of the encoding file paths actually found
(`self.encodings.values()`) — not the set of format kinds, which is what
the original claim said (see the counterexample). -/
theorem construction_missing_authority (fs : FS) (name : String)
    (root : FsPath) (fmt : String)
    (hroot : fs.isdir root) (hfolder : fs.isdir (root ++ [name]))
    (hfmt : fmt ∈ AVAILABLE_AUTHORITIES)
    (hpf : ¬ fs.isfile (root ++ [name] ++ ["performances"]))
    (hsf : ¬ fs.isfile (root ++ [name] ++ ["scores"]))
    (hmiss : (collect_encodings fs (root ++ [name]) name).lookup fmt = none) :
    (Piece.init fs name root fmt).2 =
      .error (.missingAuthorityEncoding name root fmt
        ((collect_encodings fs (root ++ [name]) name).map Prod.snd)) := by
  simp only [Piece.init]
  rw [if_neg (not_not_intro hroot), if_neg (not_not_intro hfolder),
    if_neg (not_not_intro hfmt)]
  set e1 := ensure_dir fs (root ++ [name] ++ ["performances"]) with he1
  have h1 : e1.2 = none := by rw [he1]; exact ensure_dir_none hpf
  rw [h1]
  dsimp only
  set e2 := ensure_dir e1.1 (root ++ [name] ++ ["scores"]) with he2
  have hf1 : e1.1.files = fs.files := by rw [he1]; exact ensure_dir_files _ _
  have h2 : e2.2 = none := by
    rw [he2]
    refine ensure_dir_none ?_
    rw [isfile_iff, hf1]
    exact hsf
  rw [h2]
  dsimp only
  have hf2 : e2.1.files = fs.files := by
    rw [he2, ensure_dir_files]
    exact hf1
  have hc : collect_encodings e2.1 (root ++ [name]) name =
      collect_encodings fs (root ++ [name]) name :=
    collect_encodings_files_eq hf2 _ _
  rw [hc, hmiss]

/-- Witness for the amended C4 theorem at the spec scenario: piece
`bach_bwv846` with only `ly` and `midi` files, constructed with authority
format `mxml`. -/
theorem construction_missing_authority_witness :
    (Piece.init fsC4 "bach_bwv846" ["col"] "mxml").2 =
      .error (.missingAuthorityEncoding "bach_bwv846" ["col"] "mxml"
        ((collect_encodings fsC4 (["col"] ++ ["bach_bwv846"])
          "bach_bwv846").map Prod.snd)) :=
  construction_missing_authority fsC4 "bach_bwv846" ["col"] "mxml"
    (by decide) (by decide) (by decide) (by decide) (by decide) (by decide)

/-- C4 counterexample: in the spec scenario (piece with only `ly` and
`midi` files, requested authority `mxml`) the missing-authority diagnostic
carries the requested format together with the encoding file paths
(`dict.values()`), which is not the set of formats (kinds) `{ly, midi}`
the claim says it lists. -/
theorem construction_missing_authority_counterexample :
    (Piece.init fsC4 "bach_bwv846" ["col"] "mxml").2 =
      .error (.missingAuthorityEncoding "bach_bwv846" ["col"] "mxml"
        [["col", "bach_bwv846", "bach_bwv846.ly"],
         ["col", "bach_bwv846", "bach_bwv846.mid"]]) ∧
    ([["col", "bach_bwv846", "bach_bwv846.ly"],
      ["col", "bach_bwv846", "bach_bwv846.mid"]] : List FsPath) ≠
      [["ly"], ["midi"]] := by decide

/-- C5: evaluation of the divergence: `collect_performances` builds its
keys from `os.listdir`, which also returns plain files, so the file entry
`stray.txt` inside the performances directory appears as a performance key
even though it is not a directory; the claim (like the docstring of
`collect_performances`, which says keys correspond to directory names in
`performance_dir`) requires the keys to be exactly the immediate
subdirectory names. -/
theorem collect_performances_includes_files :
    fsC5.isfile (["col", "bach", "performances"] ++ ["stray.txt"]) ∧
    ¬ fsC5.isdir (["col", "bach", "performances"] ++ ["stray.txt"]) ∧
    "stray.txt" ∈ keys (collect_performances fsC5 ["col", "bach", "performances"]) ∧
    keys (collect_performances fsC5 ["col", "bach", "performances"]) =
      ["stray.txt", "take1"] := by decide

/-- C6: evaluation of the metadata-loading behaviour.  When `meta.yml` is
absent, `load_metadata` warns and returns the empty dict, and consuming the
result succeeds.  When `meta.yml` is present, the function returns the lazy
`yaml.load_all` generator after the `with` block has already closed the
file handle, so consuming the returned value raises (I/O operation on
closed file): the parsed mapping is not usable by the caller, contrary to
the claim. -/
theorem load_metadata_behaviour (fs : FS) (folder : FsPath) :
    (¬ fs.isfile (folder ++ ["meta.yml"]) →
      load_metadata fs folder = .dict0 ∧
      force_metadata (load_metadata fs folder) = .ok ()) ∧
    (fs.isfile (folder ++ ["meta.yml"]) →
      load_metadata fs folder = .docs false ∧
      force_metadata (load_metadata fs folder) = .error .ioOnClosedFile) := by
  constructor
  · intro h
    unfold load_metadata
    rw [if_pos h]
    exact ⟨rfl, rfl⟩
  · intro h
    unfold load_metadata
    rw [if_neg (not_not_intro h)]
    exact ⟨rfl, rfl⟩

/-- Witness for the C6 evaluation at a concrete piece folder that does
contain a `meta.yml`. -/
theorem load_metadata_behaviour_witness :
    load_metadata ⟨[["col", "bach", "meta.yml"]], []⟩ ["col", "bach"] =
        .docs false ∧
      force_metadata (load_metadata ⟨[["col", "bach", "meta.yml"]], []⟩
        ["col", "bach"]) = .error .ioOnClosedFile :=
  (load_metadata_behaviour ⟨[["col", "bach", "meta.yml"]], []⟩
    ["col", "bach"]).2 (by decide)

/-- C10: when `update` runs after the current authority encoding file has
been removed from disk, it raises the missing-authority error only after
`self.encodings` has already been replaced by the fresh scan: the observed
post-state has `encodings` equal to the fresh scan result, the unchanged
`authority_format` no longer a key of `encodings`, the unchanged
`authority` pointing to a path not listed among the values of `encodings`,
and `performances` and `scores` not refreshed by the failed call. -/
theorem update_nonatomic_on_missing_authority (s : PieceState) (fs : FS)
    (hfmt : s.authority_format ∈ AVAILABLE_AUTHORITIES)
    (hmiss : (collect_encodings fs s.folder s.name).lookup
      s.authority_format = none)
    (hgone : ¬ fs.isfile s.authority) :
    (update s fs).2 = some (.missingAuthorityEncoding s.name
        s.collection_root s.authority_format
        ((collect_encodings fs s.folder s.name).map Prod.snd)) ∧
    (update s fs).1.2 = fs ∧
    (update s fs).1.1.encodings = collect_encodings fs s.folder s.name ∧
    (update s fs).1.1.authority_format = s.authority_format ∧
    (update s fs).1.1.authority = s.authority ∧
    (update s fs).1.1.authority_format ∉ keys (update s fs).1.1.encodings ∧
    (update s fs).1.1.authority ∉ (update s fs).1.1.encodings.map Prod.snd ∧
    (update s fs).1.1.performances = s.performances ∧
    (update s fs).1.1.scores = s.scores := by
  have hsa : set_authority
      {s with encodings := collect_encodings fs s.folder s.name}
      s.authority_format =
      ({s with encodings := collect_encodings fs s.folder s.name},
        some (.missingAuthorityEncoding s.name s.collection_root
          s.authority_format
          ((collect_encodings fs s.folder s.name).map Prod.snd))) :=
    set_authority_missing hfmt hmiss
  simp only [update]
  rw [hsa]
  refine ⟨rfl, rfl, rfl, rfl, rfl, not_mem_keys_of_lookup_none hmiss,
    fun hmem => hgone (collect_encodings_values_isfile hmem), rfl, rfl⟩

/-- Witness for C10: the concrete constructed piece `sC1` after its only
encoding file `bach.ly` has been removed (`fsC1b`). -/
theorem update_nonatomic_witness :
    (update sC1 fsC1b).2 = some (.missingAuthorityEncoding "bach" ["col"]
      "ly" ((collect_encodings fsC1b ["col", "bach"] "bach").map Prod.snd)) :=
  (update_nonatomic_on_missing_authority sC1 fsC1b
    (by decide) (by decide) (by decide)).1

lemma appendToLast_concat (F : FsPath) (x y : String) :
    appendToLast (F ++ [x]) y = F ++ [x ++ y] := by
  unfold appendToLast
  rw [List.dropLast_concat, List.getLast?_concat]
  rfl

lemma collect_encodings_files_congr {fs1 fs2 : FS} {F : FsPath} {P : String}
    (h : ∀ c : FsPath, c.length = F.length + 1 → (fs1.isfile c ↔ fs2.isfile c)) :
    collect_encodings fs1 F P = collect_encodings fs2 F P := by
  have h1 := h (F ++ [P ++ ".xml"]) (by simp)
  have h2 := h (F ++ [P ++ ".ly"]) (by simp)
  have h3 := h (F ++ [P ++ ".mid"]) (by simp)
  have h4 := h (F ++ [P ++ ".midi"]) (by simp)
  have h5 := h (F ++ [P ++ ".mei"]) (by simp)
  have hmid : appendToLast (F ++ [P ++ ".mid"]) "i" = F ++ [P ++ ".midi"] := by
    rw [appendToLast_concat]
    have hstr : (".mid" ++ "i" : String) = ".midi" := by decide
    rw [String.append_assoc, hstr]
  simp only [collect_encodings, hmid, h1, h2, h3, h4, h5]
  by_cases hmd : fs2.isfile (F ++ [P ++ ".mid"])
  · simp [hmd, h3]
  · simp [hmd, h4]

lemma mkdir_ok {fs : FS} {p : FsPath} (h1 : ¬ fs.isdir p)
    (h2 : ¬ fs.isfile p) : mkdir fs p = .ok ⟨fs.files, p :: fs.dirs⟩ := by
  unfold mkdir
  rw [if_neg (fun hc => hc.elim h1 h2)]

lemma copyfile_ok {fs : FS} {src dst : FsPath} (h1 : fs.isfile src)
    (h2 : ¬ fs.isdir dst) :
    copyfile fs src dst =
      .ok ⟨if dst ∈ fs.files then fs.files else dst :: fs.files, fs.dirs⟩ := by
  unfold copyfile
  rw [if_neg (not_not_intro h1), if_neg h2]

lemma mem_insert_file {fl : List FsPath} {dst q : FsPath} :
    q ∈ (if dst ∈ fl then fl else dst :: fl) ↔ q = dst ∨ q ∈ fl := by
  by_cases hd : dst ∈ fl
  · rw [if_pos hd]
    constructor
    · exact Or.inr
    · rintro (rfl | hq)
      · exact hd
      · exact hq
  · rw [if_neg hd]
    exact List.mem_cons

lemma rmtree_ok {fs : FS} {p : FsPath} (h : fs.isdir p) :
    rmtree fs p = .ok (rmtreeFS fs p) := by
  unfold rmtree rmtreeFS
  rw [if_neg (not_not_intro h)]

lemma mem_filter_not_pref {l : List FsPath} {p q : FsPath} :
    q ∈ l.filter (fun r => ! p.isPrefixOf r) ↔ q ∈ l ∧ ¬ p <+: q := by
  simp only [List.mem_filter, Bool.not_eq_true']
  rw [and_congr_right_iff]
  intro _
  rw [Bool.eq_false_iff]
  exact not_congr ( List.isPrefixOf_iff_prefix)

lemma isfile_rmtreeFS {fs : FS} {p q : FsPath} :
    (rmtreeFS fs p).isfile q ↔ fs.isfile q ∧ ¬ p <+: q :=
  mem_filter_not_pref

lemma isdir_rmtreeFS {fs : FS} {p q : FsPath} :
    (rmtreeFS fs p).isdir q ↔ fs.isdir q ∧ ¬ p <+: q :=
  mem_filter_not_pref

lemma set_authority_found {s : PieceState} {fmt : String} {p : FsPath}
    (hm : fmt ∈ AVAILABLE_AUTHORITIES) (hl : s.encodings.lookup fmt = some p) :
    set_authority s fmt = ({s with authority_format := fmt, authority := p},
      none) := by
  unfold set_authority
  rw [if_neg (not_not_intro hm), hl]

lemma ensure_piece_structure_of_isdir {s : PieceState} {fs : FS}
    (h3 : fs.isdir s.performance_dir) (h4 : fs.isdir s.score_dir) :
    ensure_piece_structure s fs = (fs, none) := by
  unfold ensure_piece_structure
  rw [ensure_dir_of_isdir h3]
  exact ensure_dir_of_isdir h4

lemma update_success {s : PieceState} {fs : FS} {p : FsPath}
    (h1 : s.authority_format ∈ AVAILABLE_AUTHORITIES)
    (h2 : (collect_encodings fs s.folder s.name).lookup
      s.authority_format = some p)
    (h3 : fs.isdir s.performance_dir) (h4 : fs.isdir s.score_dir) :
    update s fs =
      (({s with
          encodings := collect_encodings fs s.folder s.name
          authority := p
          performances := collect_performances fs s.performance_dir
          scores := collect_scores fs s.score_dir}, fs), none) := by
  have hsa : set_authority
      {s with encodings := collect_encodings fs s.folder s.name}
      s.authority_format =
      ({s with
          encodings := collect_encodings fs s.folder s.name
          authority := p}, none) := by
    rw [set_authority_found h1 h2]
  simp only [update]
  rw [hsa]
  dsimp only
  rw [ensure_piece_structure_of_isdir (s := {s with
      encodings := collect_encodings fs s.folder s.name
      authority := p}) h3 h4]

lemma extOf_eq (q : FsPath) : splitextExt (lastComponent q) = extOf q := rfl

lemma concat_ne_self (l : FsPath) (x : String) : l ++ [x] ≠ l := by
  intro h
  have := congrArg List.length h
  simp at this

lemma mem_listdir_of_isdir_child {fl dl : List FsPath} {d : FsPath}
    {x : String} (h : (d ++ [x]) ∈ dl) :
    x ∈ FS.listdir ⟨fl, dl⟩ d :=
  mem_listdir.mpr (Or.inr h)

lemma lookup_collect_performances {fs : FS} {pd : FsPath} {n : String}
    (h : n ∈ fs.listdir pd) :
    (collect_performances fs pd).lookup n = some (pd ++ [n]) := by
  unfold collect_performances
  rw [lookup_map_self, if_pos h]

lemma load_performance_success {s : PieceState} {fs : FS} {n : String}
    {p : FsPath}
    (h1 : s.authority_format ∈ AVAILABLE_AUTHORITIES)
    (h2 : (collect_encodings fs s.folder s.name).lookup
      s.authority_format = some p)
    (h3 : fs.isdir s.performance_dir) (h4 : fs.isdir s.score_dir)
    (h5 : n ∈ fs.listdir s.performance_dir) :
    load_performance s fs n =
      (({s with
          encodings := collect_encodings fs s.folder s.name
          authority := p
          performances := collect_performances fs s.performance_dir
          scores := collect_scores fs s.score_dir}, fs),
        .ok (Performance.construct (s.performance_dir ++ [n]) s.name)) := by
  simp only [load_performance]
  rw [update_success h1 h2 h3 h4]
  dsimp only
  rw [lookup_collect_performances h5]

lemma add_performance_body_spec (s : PieceState) (fs : FS) (name : String)
    (audio_file : FsPath) (midi_file : Option FsPath) (p : FsPath)
    (hpd : s.performance_dir = s.folder ++ ["performances"])
    (hfmt : s.authority_format ∈ AVAILABLE_AUTHORITIES)
    (henc : (collect_encodings fs s.folder s.name).lookup
      s.authority_format = some p)
    (hdp : fs.isdir s.performance_dir)
    (hds : fs.isdir s.score_dir)
    (hclean : ∀ q, (s.performance_dir ++ [name]) <+: q →
      ¬ fs.isfile q ∧ ¬ fs.isdir q)
    (haudio : fs.isfile audio_file)
    (hmidi : ∀ m ∈ midi_file, fs.isfile m) :
    ∃ fl : List FsPath,
      (∀ q, q ∈ fl ↔
        q = s.performance_dir ++ [name] ++ [name ++ extOf audio_file] ∨
        (∃ m ∈ midi_file, q = s.performance_dir ++ [name] ++ [name ++ extOf m]) ∨
        q ∈ fs.files) ∧
      add_performance_body s fs name audio_file midi_file =
        (({s with
            encodings := collect_encodings fs s.folder s.name
            authority := p
            performances := collect_performances
              ⟨fl, (s.performance_dir ++ [name]) :: fs.dirs⟩ s.performance_dir
            scores := collect_scores
              ⟨fl, (s.performance_dir ++ [name]) :: fs.dirs⟩ s.score_dir},
          (⟨fl, (s.performance_dir ++ [name]) :: fs.dirs⟩ : FS)), none) := by
  simp only [add_performance_body, extOf_eq]
  set npd := s.performance_dir ++ [name] with hnpd
  have hlen_pd : s.performance_dir.length = s.folder.length + 1 := by
    rw [hpd]; simp
  have hnpd_pref : npd <+: npd := List.prefix_refl npd
  have hmk : mkdir fs npd = .ok ⟨fs.files, npd :: fs.dirs⟩ :=
    mkdir_ok (hclean npd hnpd_pref).2 (hclean npd hnpd_pref).1
  have hext_pref : ∀ x : String, npd <+: npd ++ [x] := fun x => ⟨[x], rfl⟩
  have hext_ne : ∀ x : String, npd ++ [x] ≠ npd := fun x => concat_ne_self npd x
  have hnd : ∀ x : String, ¬ FS.isdir ⟨fs.files, npd :: fs.dirs⟩ (npd ++ [x]) := by
    intro x hm
    rcases List.mem_cons.mp hm with heq | hm2
    · exact hext_ne x heq
    · exact (hclean _ (hext_pref x)).2 hm2
  have hnf : ∀ x : String, ¬ fs.isfile (npd ++ [x]) :=
    fun x => (hclean _ (hext_pref x)).1
  have hcp1 : copyfile ⟨fs.files, npd :: fs.dirs⟩ audio_file
      (npd ++ [name ++ extOf audio_file]) =
      .ok ⟨(npd ++ [name ++ extOf audio_file]) :: fs.files, npd :: fs.dirs⟩ := by
    rw [copyfile_ok
      (show FS.isfile ⟨fs.files, npd :: fs.dirs⟩ audio_file from haudio)
      (hnd (name ++ extOf audio_file))]
    dsimp only
    rw [if_neg (show ¬ (npd ++ [name ++ extOf audio_file]) ∈ fs.files from
      hnf (name ++ extOf audio_file))]
  have hcand_len : ∀ (x : String) (c : FsPath),
      c.length = s.folder.length + 1 → npd ++ [x] ≠ c := by
    intro x c hc heq
    have h1 : (npd ++ [x]).length = s.folder.length + 3 := by
      simp [hnpd, hlen_pd]
    rw [heq, hc] at h1
    omega
  cases midi_file with
  | none =>
    refine ⟨(npd ++ [name ++ extOf audio_file]) :: fs.files, ?_, ?_⟩
    · intro q
      simp [List.mem_cons, eq_comm]
    · rw [hmk]
      dsimp only
      rw [hcp1]
      dsimp only
      simp only [copy_midi]
      have hcoll : collect_encodings
          ⟨(npd ++ [name ++ extOf audio_file]) :: fs.files, npd :: fs.dirs⟩
          s.folder s.name = collect_encodings fs s.folder s.name := by
        refine collect_encodings_files_congr ?_
        intro c hc
        show c ∈ _ :: fs.files ↔ c ∈ fs.files
        rw [List.mem_cons]
        constructor
        · rintro (rfl | hq)
          · exact absurd rfl (hcand_len _ _ hc)
          · exact hq
        · exact Or.inr
      have h2 : (collect_encodings
          ⟨(npd ++ [name ++ extOf audio_file]) :: fs.files, npd :: fs.dirs⟩
          s.folder s.name).lookup s.authority_format = some p := by
        rw [hcoll]; exact henc
      have h3 : FS.isdir
          ⟨(npd ++ [name ++ extOf audio_file]) :: fs.files, npd :: fs.dirs⟩
          s.performance_dir := List.mem_cons_of_mem _ hdp
      have h4 : FS.isdir
          ⟨(npd ++ [name ++ extOf audio_file]) :: fs.files, npd :: fs.dirs⟩
          s.score_dir := List.mem_cons_of_mem _ hds
      rw [update_success hfmt h2 h3 h4]
      dsimp only
      have h5 : name ∈ FS.listdir
          ⟨(npd ++ [name ++ extOf audio_file]) :: fs.files, npd :: fs.dirs⟩
          s.performance_dir :=
        mem_listdir_of_isdir_child (List.mem_cons_self npd fs.dirs)
      rw [load_performance_success (s := {s with
          encodings := collect_encodings
            ⟨(npd ++ [name ++ extOf audio_file]) :: fs.files, npd :: fs.dirs⟩
            s.folder s.name
          authority := p
          performances := collect_performances
            ⟨(npd ++ [name ++ extOf audio_file]) :: fs.files, npd :: fs.dirs⟩
            s.performance_dir
          scores := collect_scores
            ⟨(npd ++ [name ++ extOf audio_file]) :: fs.files, npd :: fs.dirs⟩
            s.score_dir}) hfmt h2 h3 h4 h5]
      dsimp only
      rw [hcoll]
  | some m =>
    have hmf : fs.isfile m := hmidi m rfl
    have hnd2 : ¬ FS.isdir
        ⟨(npd ++ [name ++ extOf audio_file]) :: fs.files, npd :: fs.dirs⟩
        (npd ++ [name ++ extOf m]) := hnd (name ++ extOf m)
    have hcp2 : copyfile
        ⟨(npd ++ [name ++ extOf audio_file]) :: fs.files, npd :: fs.dirs⟩ m
        (npd ++ [name ++ extOf m]) =
        .ok ⟨if (npd ++ [name ++ extOf m]) ∈
              (npd ++ [name ++ extOf audio_file]) :: fs.files then
            (npd ++ [name ++ extOf audio_file]) :: fs.files
          else (npd ++ [name ++ extOf m]) ::
            (npd ++ [name ++ extOf audio_file]) :: fs.files,
          npd :: fs.dirs⟩ := by
      rw [copyfile_ok (show FS.isfile
        ⟨(npd ++ [name ++ extOf audio_file]) :: fs.files, npd :: fs.dirs⟩ m
        from List.mem_cons_of_mem _ hmf) hnd2]
    refine ⟨if (npd ++ [name ++ extOf m]) ∈
        (npd ++ [name ++ extOf audio_file]) :: fs.files then
        (npd ++ [name ++ extOf audio_file]) :: fs.files
      else (npd ++ [name ++ extOf m]) ::
        (npd ++ [name ++ extOf audio_file]) :: fs.files, ?_, ?_⟩
    · intro q
      rw [mem_insert_file, List.mem_cons]
      simp only [Option.mem_def, Option.some.injEq]
      constructor
      · rintro (rfl | rfl | hq)
        · exact Or.inr (Or.inl ⟨m, rfl, rfl⟩)
        · exact Or.inl rfl
        · exact Or.inr (Or.inr hq)
      · rintro (rfl | ⟨m', rfl, rfl⟩ | hq)
        · exact Or.inr (Or.inl rfl)
        · exact Or.inl rfl
        · exact Or.inr (Or.inr hq)
    · rw [hmk]
      dsimp only
      rw [hcp1]
      dsimp only
      simp only [copy_midi, extOf_eq]
      rw [hcp2]
      dsimp only
      have hmemfl : ∀ c : FsPath, c.length = s.folder.length + 1 →
          (FS.isfile ⟨if (npd ++ [name ++ extOf m]) ∈
              (npd ++ [name ++ extOf audio_file]) :: fs.files then
              (npd ++ [name ++ extOf audio_file]) :: fs.files
            else (npd ++ [name ++ extOf m]) ::
              (npd ++ [name ++ extOf audio_file]) :: fs.files,
            npd :: fs.dirs⟩ c ↔ fs.isfile c) := by
        intro c hc
        show c ∈ _ ↔ c ∈ fs.files
        rw [mem_insert_file, List.mem_cons]
        constructor
        · rintro (rfl | rfl | hq)
          · exact absurd rfl (hcand_len _ _ hc)
          · exact absurd rfl (hcand_len _ _ hc)
          · exact hq
        · exact fun hq => Or.inr (Or.inr hq)
      have hcoll : collect_encodings
          ⟨if (npd ++ [name ++ extOf m]) ∈
              (npd ++ [name ++ extOf audio_file]) :: fs.files then
              (npd ++ [name ++ extOf audio_file]) :: fs.files
            else (npd ++ [name ++ extOf m]) ::
              (npd ++ [name ++ extOf audio_file]) :: fs.files,
            npd :: fs.dirs⟩ s.folder s.name =
          collect_encodings fs s.folder s.name :=
        collect_encodings_files_congr hmemfl
      have h2 : (collect_encodings
          ⟨if (npd ++ [name ++ extOf m]) ∈
              (npd ++ [name ++ extOf audio_file]) :: fs.files then
              (npd ++ [name ++ extOf audio_file]) :: fs.files
            else (npd ++ [name ++ extOf m]) ::
              (npd ++ [name ++ extOf audio_file]) :: fs.files,
            npd :: fs.dirs⟩ s.folder s.name).lookup
          s.authority_format = some p := by
        rw [hcoll]; exact henc
      have h3 : FS.isdir
          ⟨if (npd ++ [name ++ extOf m]) ∈
              (npd ++ [name ++ extOf audio_file]) :: fs.files then
              (npd ++ [name ++ extOf audio_file]) :: fs.files
            else (npd ++ [name ++ extOf m]) ::
              (npd ++ [name ++ extOf audio_file]) :: fs.files,
            npd :: fs.dirs⟩ s.performance_dir := List.mem_cons_of_mem _ hdp
      have h4 : FS.isdir
          ⟨if (npd ++ [name ++ extOf m]) ∈
              (npd ++ [name ++ extOf audio_file]) :: fs.files then
              (npd ++ [name ++ extOf audio_file]) :: fs.files
            else (npd ++ [name ++ extOf m]) ::
              (npd ++ [name ++ extOf audio_file]) :: fs.files,
            npd :: fs.dirs⟩ s.score_dir := List.mem_cons_of_mem _ hds
      rw [update_success hfmt h2 h3 h4]
      dsimp only
      have h5 : name ∈ FS.listdir
          ⟨if (npd ++ [name ++ extOf m]) ∈
              (npd ++ [name ++ extOf audio_file]) :: fs.files then
              (npd ++ [name ++ extOf audio_file]) :: fs.files
            else (npd ++ [name ++ extOf m]) ::
              (npd ++ [name ++ extOf audio_file]) :: fs.files,
            npd :: fs.dirs⟩ s.performance_dir :=
        mem_listdir_of_isdir_child (List.mem_cons_self npd fs.dirs)
      rw [load_performance_success (s := {s with
          encodings := collect_encodings
            ⟨if (npd ++ [name ++ extOf m]) ∈
                (npd ++ [name ++ extOf audio_file]) :: fs.files then
                (npd ++ [name ++ extOf audio_file]) :: fs.files
              else (npd ++ [name ++ extOf m]) ::
                (npd ++ [name ++ extOf audio_file]) :: fs.files,
              npd :: fs.dirs⟩ s.folder s.name
          authority := p
          performances := collect_performances
            ⟨if (npd ++ [name ++ extOf m]) ∈
                (npd ++ [name ++ extOf audio_file]) :: fs.files then
                (npd ++ [name ++ extOf audio_file]) :: fs.files
              else (npd ++ [name ++ extOf m]) ::
                (npd ++ [name ++ extOf audio_file]) :: fs.files,
              npd :: fs.dirs⟩ s.performance_dir
          scores := collect_scores
            ⟨if (npd ++ [name ++ extOf m]) ∈
                (npd ++ [name ++ extOf audio_file]) :: fs.files then
                (npd ++ [name ++ extOf audio_file]) :: fs.files
              else (npd ++ [name ++ extOf m]) ::
                (npd ++ [name ++ extOf audio_file]) :: fs.files,
              npd :: fs.dirs⟩ s.score_dir}) hfmt h2 h3 h4 h5]
      dsimp only
      rw [hcoll]

lemma concat_inj {l : FsPath} {x y : String} : l ++ [x] = l ++ [y] ↔ x = y := by
  rw [List.append_right_inj]
  exact ⟨fun h => by injection h, fun h => by rw [h]⟩

/-- C7: on a synchronized piece, `add_performance(name, audio, midi)` for a
fresh name and existing source files succeeds; afterwards the performance is
indexed at `performanceDir/name`, that directory exists and its entries are
exactly `name + ext(audio)` and, when a MIDI file was given,
`name + ext(midi)`, and a subsequent `load_performance(name)` succeeds,
returning the Performance handle for the new directory. -/
theorem add_performance_roundtrip (s : PieceState) (fs : FS) (name : String)
    (audio_file : FsPath) (midi_file : Option FsPath) (p : FsPath)
    (hpd : s.performance_dir = s.folder ++ ["performances"])
    (hfmt : s.authority_format ∈ AVAILABLE_AUTHORITIES)
    (henc : (collect_encodings fs s.folder s.name).lookup
      s.authority_format = some p)
    (hdp : fs.isdir s.performance_dir)
    (hds : fs.isdir s.score_dir)
    (hfresh : name ∉ keys s.performances)
    (hclean : ∀ q, (s.performance_dir ++ [name]) <+: q →
      ¬ fs.isfile q ∧ ¬ fs.isdir q)
    (haudio : fs.isfile audio_file)
    (hmidi : ∀ m ∈ midi_file, fs.isfile m) :
    (add_performance s fs name audio_file midi_file false).2 = none ∧
    ((add_performance s fs name audio_file midi_file false).1.1.performances.lookup
        name = some (s.performance_dir ++ [name])) ∧
    (add_performance s fs name audio_file midi_file false).1.2.isdir
      (s.performance_dir ++ [name]) ∧
    (∀ x, x ∈ (add_performance s fs name audio_file midi_file false).1.2.listdir
        (s.performance_dir ++ [name]) ↔
      x = name ++ extOf audio_file ∨ ∃ m ∈ midi_file, x = name ++ extOf m) ∧
    (load_performance (add_performance s fs name audio_file midi_file false).1.1
        (add_performance s fs name audio_file midi_file false).1.2 name).2 =
      .ok (Performance.construct (s.performance_dir ++ [name]) s.name) := by
  obtain ⟨fl, hfl, hbody⟩ := add_performance_body_spec s fs name audio_file
    midi_file p hpd hfmt henc hdp hds hclean haudio hmidi
  have hadd : add_performance s fs name audio_file midi_file false =
      (({s with
          encodings := collect_encodings fs s.folder s.name
          authority := p
          performances := collect_performances
            ⟨fl, (s.performance_dir ++ [name]) :: fs.dirs⟩ s.performance_dir
          scores := collect_scores
            ⟨fl, (s.performance_dir ++ [name]) :: fs.dirs⟩ s.score_dir},
        (⟨fl, (s.performance_dir ++ [name]) :: fs.dirs⟩ : FS)), none) := by
    simp only [add_performance]
    rw [if_neg hfresh]
    exact hbody
  rw [hadd]
  have hlen_pd : s.performance_dir.length = s.folder.length + 1 := by
    rw [hpd]; simp
  have hcand_len : ∀ (x : String) (c : FsPath),
      c.length = s.folder.length + 1 → s.performance_dir ++ [name] ++ [x] ≠ c := by
    intro x c hc heq
    have h1 : (s.performance_dir ++ [name] ++ [x]).length =
        s.folder.length + 3 := by simp [hlen_pd]
    rw [heq, hc] at h1
    omega
  have h5 : name ∈ FS.listdir ⟨fl, (s.performance_dir ++ [name]) :: fs.dirs⟩
      s.performance_dir :=
    mem_listdir_of_isdir_child (List.mem_cons_self _ fs.dirs)
  have hmemfl : ∀ c : FsPath, c.length = s.folder.length + 1 →
      (FS.isfile ⟨fl, (s.performance_dir ++ [name]) :: fs.dirs⟩ c ↔
        fs.isfile c) := by
    intro c hc
    show c ∈ fl ↔ c ∈ fs.files
    rw [hfl c]
    constructor
    · rintro (rfl | ⟨m', hm', rfl⟩ | hq)
      · exact absurd rfl (hcand_len _ _ hc)
      · exact absurd rfl (hcand_len _ _ hc)
      · exact hq
    · exact fun hq => Or.inr (Or.inr hq)
  have hcoll : collect_encodings ⟨fl, (s.performance_dir ++ [name]) :: fs.dirs⟩
      s.folder s.name = collect_encodings fs s.folder s.name :=
    collect_encodings_files_congr hmemfl
  have h2 : (collect_encodings ⟨fl, (s.performance_dir ++ [name]) :: fs.dirs⟩
      s.folder s.name).lookup s.authority_format = some p := by
    rw [hcoll]; exact henc
  have h3 : FS.isdir ⟨fl, (s.performance_dir ++ [name]) :: fs.dirs⟩
      s.performance_dir := List.mem_cons_of_mem _ hdp
  have h4 : FS.isdir ⟨fl, (s.performance_dir ++ [name]) :: fs.dirs⟩
      s.score_dir := List.mem_cons_of_mem _ hds
  refine ⟨rfl, lookup_collect_performances h5, List.mem_cons_self _ _, ?_, ?_⟩
  · intro x
    rw [mem_listdir]
    constructor
    · rintro (hf | hd)
      · rw [show FS.isfile ⟨fl, (s.performance_dir ++ [name]) :: fs.dirs⟩
            (s.performance_dir ++ [name] ++ [x]) ↔
            (s.performance_dir ++ [name] ++ [x]) ∈ fl from Iff.rfl, hfl] at hf
        rcases hf with heq | ⟨m', hm', heq⟩ | hq
        · exact Or.inl (concat_inj.mp heq)
        · exact Or.inr ⟨m', hm', concat_inj.mp heq⟩
        · exact absurd hq (hclean _ ⟨[x], rfl⟩).1
      · rcases List.mem_cons.mp hd with heq | hq
        · exact absurd heq (concat_ne_self _ _)
        · exact absurd hq (hclean _ ⟨[x], rfl⟩).2
    · rintro (rfl | ⟨m', hm', rfl⟩)
      · refine Or.inl ?_
        rw [show FS.isfile ⟨fl, (s.performance_dir ++ [name]) :: fs.dirs⟩
            (s.performance_dir ++ [name] ++ [name ++ extOf audio_file]) ↔
            (s.performance_dir ++ [name] ++ [name ++ extOf audio_file]) ∈ fl
            from Iff.rfl, hfl]
        exact Or.inl rfl
      · refine Or.inl ?_
        rw [show FS.isfile ⟨fl, (s.performance_dir ++ [name]) :: fs.dirs⟩
            (s.performance_dir ++ [name] ++ [name ++ extOf m']) ↔
            (s.performance_dir ++ [name] ++ [name ++ extOf m']) ∈ fl
            from Iff.rfl, hfl]
        exact Or.inr (Or.inl ⟨m', hm', rfl⟩)
  · rw [load_performance_success (s := {s with
        encodings := collect_encodings fs s.folder s.name
        authority := p
        performances := collect_performances
          ⟨fl, (s.performance_dir ++ [name]) :: fs.dirs⟩ s.performance_dir
        scores := collect_scores
          ⟨fl, (s.performance_dir ++ [name]) :: fs.dirs⟩ s.score_dir})
      hfmt h2 h3 h4 h5]


theorem add_performance_roundtrip_witness :
    (add_performance sC1 fsC7 "take1" ["tmp", "rec.wav"]
      (some ["tmp", "rec.mid"]) false).2 = none ∧
    (load_performance (add_performance sC1 fsC7 "take1" ["tmp", "rec.wav"]
        (some ["tmp", "rec.mid"]) false).1.1
      (add_performance sC1 fsC7 "take1" ["tmp", "rec.wav"]
        (some ["tmp", "rec.mid"]) false).1.2 "take1").2 =
      .ok (Performance.construct (sC1.performance_dir ++ ["take1"]) sC1.name) := by
  have H := add_performance_roundtrip sC1 fsC7 "take1" ["tmp", "rec.wav"]
    (some ["tmp", "rec.mid"]) ["col", "bach", "bach.ly"]
    (by decide) (by decide) (by decide) (by decide) (by decide) (by decide)
    (by
      intro q hq
      constructor
      · intro hf
        have hf' : q ∈ [["col", "bach", "bach.ly"], ["tmp", "rec.wav"],
          ["tmp", "rec.mid"]] := hf
        fin_cases hf' <;> exact absurd hq (by decide)
      · intro hd
        have hd' : q ∈ [["col"], ["col", "bach"],
          ["col", "bach", "performances"], ["col", "bach", "scores"]] := hd
        fin_cases hd' <;> exact absurd hq (by decide))
    (by decide)
    (by
      intro m hm
      injection hm with h
      subst h
      decide)
  exact ⟨H.1, H.2.2.2.2⟩

lemma not_pref_of_len {a b : FsPath} (h : b.length < a.length) : ¬ a <+: b :=
  fun hp => absurd hp.length_le (by omega)

lemma remove_performance_spec (s : PieceState) (fs : FS) (name : String)
    (p : FsPath)
    (hpd : s.performance_dir = s.folder ++ ["performances"])
    (hsd : s.score_dir = s.folder ++ ["scores"])
    (hfmt : s.authority_format ∈ AVAILABLE_AUTHORITIES)
    (henc : (collect_encodings fs s.folder s.name).lookup
      s.authority_format = some p)
    (hdp : fs.isdir s.performance_dir)
    (hds : fs.isdir s.score_dir)
    (hdisk : fs.isdir (s.performance_dir ++ [name])) :
    remove_performance s fs name =
      (({s with
          encodings := collect_encodings fs s.folder s.name
          authority := p
          performances := collect_performances
            (rmtreeFS fs (s.performance_dir ++ [name])) s.performance_dir
          scores := collect_scores
            (rmtreeFS fs (s.performance_dir ++ [name])) s.score_dir},
        rmtreeFS fs (s.performance_dir ++ [name])), none) := by
  have hlen_pd : s.performance_dir.length = s.folder.length + 1 := by
    rw [hpd]; simp
  have hlen_sd : s.score_dir.length = s.folder.length + 1 := by
    rw [hsd]; simp
  have hlen_npd : (s.performance_dir ++ [name]).length =
      s.folder.length + 2 := by simp [hlen_pd]
  have hcoll : collect_encodings (rmtreeFS fs (s.performance_dir ++ [name]))
      s.folder s.name = collect_encodings fs s.folder s.name := by
    refine collect_encodings_files_congr ?_
    intro c hc
    rw [isfile_rmtreeFS]
    constructor
    · exact fun h => h.1
    · exact fun h => ⟨h, not_pref_of_len (by omega)⟩
  have h2 : (collect_encodings (rmtreeFS fs (s.performance_dir ++ [name]))
      s.folder s.name).lookup s.authority_format = some p := by
    rw [hcoll]; exact henc
  have h3 : (rmtreeFS fs (s.performance_dir ++ [name])).isdir
      s.performance_dir :=
    isdir_rmtreeFS.mpr ⟨hdp, not_pref_of_len (by omega)⟩
  have h4 : (rmtreeFS fs (s.performance_dir ++ [name])).isdir s.score_dir :=
    isdir_rmtreeFS.mpr ⟨hds, not_pref_of_len (by omega)⟩
  simp only [remove_performance]
  rw [update_success hfmt henc hdp hds]
  dsimp only
  rw [lookup_collect_performances (mem_listdir_of_isdir_child hdisk)]
  dsimp only
  rw [rmtree_ok hdisk]
  dsimp only
  rw [update_success (s := {s with
      encodings := collect_encodings fs s.folder s.name
      authority := p
      performances := collect_performances fs s.performance_dir
      scores := collect_scores fs s.score_dir}) hfmt h2 h3 h4]
  dsimp only
  rw [hcoll]

/-- C8: a second `add_performance` with an already-present name follows the
overwrite flag.  With `overwrite := false` it fails with the
performance-exists error and leaves state and filesystem exactly as they
were.  With `overwrite := true` it replaces the performance entirely: the
call succeeds and afterwards the files are exactly the old files outside
the performance directory plus the newly copied audio (and optional MIDI)
file — every old file under `performanceDir/name` is gone. -/
theorem add_performance_overwrite (s : PieceState) (fs : FS) (name : String)
    (audio_file : FsPath) (midi_file : Option FsPath) (p : FsPath)
    (hpd : s.performance_dir = s.folder ++ ["performances"])
    (hsd : s.score_dir = s.folder ++ ["scores"])
    (hfmt : s.authority_format ∈ AVAILABLE_AUTHORITIES)
    (henc : (collect_encodings fs s.folder s.name).lookup
      s.authority_format = some p)
    (hdp : fs.isdir s.performance_dir)
    (hds : fs.isdir s.score_dir)
    (hmem : name ∈ keys s.performances)
    (hdisk : fs.isdir (s.performance_dir ++ [name]))
    (haudio : fs.isfile audio_file)
    (ha2 : ¬ (s.performance_dir ++ [name]) <+: audio_file)
    (hmidi : ∀ m ∈ midi_file,
      fs.isfile m ∧ ¬ (s.performance_dir ++ [name]) <+: m) :
    (add_performance s fs name audio_file midi_file false =
      ((s, fs), some (.performanceExists s.name name))) ∧
    ((add_performance s fs name audio_file midi_file true).2 = none ∧
      ∀ q, (add_performance s fs name audio_file midi_file true).1.2.isfile q ↔
        (q = s.performance_dir ++ [name] ++ [name ++ extOf audio_file] ∨
         (∃ m ∈ midi_file,
           q = s.performance_dir ++ [name] ++ [name ++ extOf m]) ∨
         (fs.isfile q ∧ ¬ (s.performance_dir ++ [name]) <+: q))) := by
  have hrm := remove_performance_spec s fs name p hpd hsd hfmt henc hdp hds hdisk
  have hcoll : collect_encodings (rmtreeFS fs (s.performance_dir ++ [name]))
      s.folder s.name = collect_encodings fs s.folder s.name := by
    have hlen_pd : s.performance_dir.length = s.folder.length + 1 := by
      rw [hpd]; simp
    have hlen_npd : (s.performance_dir ++ [name]).length =
        s.folder.length + 2 := by simp [hlen_pd]
    refine collect_encodings_files_congr ?_
    intro c hc
    rw [isfile_rmtreeFS]
    constructor
    · exact fun h => h.1
    · exact fun h => ⟨h, not_pref_of_len (by omega)⟩
  have hlen_pd : s.performance_dir.length = s.folder.length + 1 := by
    rw [hpd]; simp
  have hlen_sd : s.score_dir.length = s.folder.length + 1 := by
    rw [hsd]; simp
  obtain ⟨fl, hfl, hbody⟩ := add_performance_body_spec
    {s with
      encodings := collect_encodings fs s.folder s.name
      authority := p
      performances := collect_performances
        (rmtreeFS fs (s.performance_dir ++ [name])) s.performance_dir
      scores := collect_scores
        (rmtreeFS fs (s.performance_dir ++ [name])) s.score_dir}
    (rmtreeFS fs (s.performance_dir ++ [name])) name audio_file midi_file p
    hpd hfmt
    (by rw [hcoll]; exact henc)
    (isdir_rmtreeFS.mpr ⟨hdp, not_pref_of_len (show
      s.performance_dir.length < (s.performance_dir ++ [name]).length by
        simp)⟩)
    (isdir_rmtreeFS.mpr ⟨hds, not_pref_of_len (show
      s.score_dir.length < (s.performance_dir ++ [name]).length by
        simp only [List.length_append, hlen_sd, hlen_pd, List.length_cons,
          List.length_nil]
        omega)⟩)
    (by
      intro q hq
      constructor
      · intro hf
        exact (isfile_rmtreeFS.mp hf).2 hq
      · intro hd
        exact (isdir_rmtreeFS.mp hd).2 hq)
    (isfile_rmtreeFS.mpr ⟨haudio, ha2⟩)
    (by
      intro m hm
      exact isfile_rmtreeFS.mpr ⟨(hmidi m hm).1, (hmidi m hm).2⟩)
  have hstep : add_performance s fs name audio_file midi_file true =
      add_performance_body
        {s with
          encodings := collect_encodings fs s.folder s.name
          authority := p
          performances := collect_performances
            (rmtreeFS fs (s.performance_dir ++ [name])) s.performance_dir
          scores := collect_scores
            (rmtreeFS fs (s.performance_dir ++ [name])) s.score_dir}
        (rmtreeFS fs (s.performance_dir ++ [name])) name audio_file
        midi_file := by
    simp only [add_performance]
    rw [if_pos hmem, if_pos trivial, hrm]
  refine ⟨?_, ?_, ?_⟩
  · simp only [add_performance]
    rw [if_pos hmem, if_neg Bool.false_ne_true]
  · rw [hstep, hbody]
  · intro q
    rw [hstep, hbody]
    dsimp only
    rw [show FS.isfile ⟨fl,
        (s.performance_dir ++ [name]) ::
          (rmtreeFS fs (s.performance_dir ++ [name])).dirs⟩ q ↔ q ∈ fl
      from Iff.rfl, hfl q]
    constructor
    · rintro (heq | hex | hq)
      · exact Or.inl heq
      · exact Or.inr (Or.inl hex)
      · exact Or.inr (Or.inr (isfile_rmtreeFS.mp hq))
    · rintro (heq | hex | hq)
      · exact Or.inl heq
      · exact Or.inr (Or.inl hex)
      · exact Or.inr (Or.inr (isfile_rmtreeFS.mpr hq))

lemma singleton_pref {a b : String} : ([a] : FsPath) <+: [b] ↔ a = b := by
  constructor
  · rintro ⟨t, ht⟩
    simp only [List.cons_append, List.nil_append, List.cons.injEq] at ht
    exact ht.1
  · rintro rfl
    exact List.prefix_refl _

lemma keys_collect_performances (fs : FS) (pd : FsPath) :
    keys (collect_performances fs pd) = fs.listdir pd := by
  unfold keys collect_performances
  rw [List.map_map]
  exact List.map_id _

lemma clear_go_spec (ns : List String) :
    ∀ (s : PieceState) (fs : FS) (p : FsPath),
    s.performance_dir = s.folder ++ ["performances"] →
    s.score_dir = s.folder ++ ["scores"] →
    s.authority_format ∈ AVAILABLE_AUTHORITIES →
    (collect_encodings fs s.folder s.name).lookup s.authority_format = some p →
    fs.isdir s.performance_dir →
    fs.isdir s.score_dir →
    ns.Nodup →
    (∀ x, x ∈ fs.listdir s.performance_dir ↔ x ∈ ns) →
    (∀ c ∈ ns, fs.isdir (s.performance_dir ++ [c])) →
    (clear_go ns s fs).2 = none ∧
    (∀ x, x ∉ FS.listdir (clear_go ns s fs).1.2 s.performance_dir) ∧
    ((∀ x, x ∉ keys (clear_go ns s fs).1.1.performances) ∨ ns = []) := by
  induction ns with
  | nil =>
    intro s fs p hpd hsd hfmt henc hdp hds hnd hchild hdirs
    refine ⟨rfl, ?_, Or.inr rfl⟩
    intro x hx
    exact absurd ((hchild x).mp hx) (List.not_mem_nil x)
  | cons n rest ih =>
    intro s fs p hpd hsd hfmt henc hdp hds hnd hchild hdirs
    have hlen_pd : s.performance_dir.length = s.folder.length + 1 := by
      rw [hpd]; simp
    have hlen_sd : s.score_dir.length = s.folder.length + 1 := by
      rw [hsd]; simp
    have hlen_npd : (s.performance_dir ++ [n]).length =
        s.folder.length + 2 := by simp [hlen_pd]
    have hdisk : fs.isdir (s.performance_dir ++ [n]) :=
      hdirs n (List.mem_cons_self _ _)
    have hrm := remove_performance_spec s fs n p hpd hsd hfmt henc hdp hds hdisk
    have hstep : clear_go (n :: rest) s fs =
        clear_go rest
          {s with
            encodings := collect_encodings fs s.folder s.name
            authority := p
            performances := collect_performances
              (rmtreeFS fs (s.performance_dir ++ [n])) s.performance_dir
            scores := collect_scores
              (rmtreeFS fs (s.performance_dir ++ [n])) s.score_dir}
          (rmtreeFS fs (s.performance_dir ++ [n])) := by
      simp only [clear_go]
      rw [hrm]
    rw [hstep]
    have hnrest : n ∉ rest := (List.nodup_cons.mp hnd).1
    have hnd' : rest.Nodup := (List.nodup_cons.mp hnd).2
    have hcoll : collect_encodings (rmtreeFS fs (s.performance_dir ++ [n]))
        s.folder s.name = collect_encodings fs s.folder s.name := by
      refine collect_encodings_files_congr ?_
      intro c hc
      rw [isfile_rmtreeFS]
      constructor
      · exact fun h => h.1
      · exact fun h => ⟨h, not_pref_of_len (by omega)⟩
    have henc' : (collect_encodings (rmtreeFS fs (s.performance_dir ++ [n]))
        s.folder s.name).lookup s.authority_format = some p := by
      rw [hcoll]; exact henc
    have hdp' : (rmtreeFS fs (s.performance_dir ++ [n])).isdir
        s.performance_dir :=
      isdir_rmtreeFS.mpr ⟨hdp, not_pref_of_len (by omega)⟩
    have hds' : (rmtreeFS fs (s.performance_dir ++ [n])).isdir s.score_dir :=
      isdir_rmtreeFS.mpr ⟨hds, not_pref_of_len (by omega)⟩
    have hnp_of_ne : ∀ x : String, x ≠ n →
        ¬ (s.performance_dir ++ [n]) <+: (s.performance_dir ++ [x]) := by
      intro x hx hp
      rw [List.prefix_append_right_inj] at hp
      exact hx (singleton_pref.mp hp).symm
    have hchild' : ∀ x, x ∈ (rmtreeFS fs (s.performance_dir ++ [n])).listdir
        s.performance_dir ↔ x ∈ rest := by
      intro x
      rw [mem_listdir, isfile_rmtreeFS, isdir_rmtreeFS]
      constructor
      · rintro (⟨hf, hnp⟩ | ⟨hd2, hnp⟩)
        · have hx := (hchild x).mp (mem_listdir.mpr (Or.inl hf))
          rcases List.mem_cons.mp hx with rfl | hr
          · exact absurd (List.prefix_refl _) hnp
          · exact hr
        · have hx := (hchild x).mp (mem_listdir.mpr (Or.inr hd2))
          rcases List.mem_cons.mp hx with rfl | hr
          · exact absurd (List.prefix_refl _) hnp
          · exact hr
      · intro hr
        have hxn : x ≠ n := fun h => hnrest (h ▸ hr)
        have hl := (hchild x).mpr (List.mem_cons_of_mem _ hr)
        rcases mem_listdir.mp hl with hf | hd2
        · exact Or.inl ⟨hf, hnp_of_ne x hxn⟩
        · exact Or.inr ⟨hd2, hnp_of_ne x hxn⟩
    have hdirs' : ∀ c ∈ rest, (rmtreeFS fs (s.performance_dir ++ [n])).isdir
        (s.performance_dir ++ [c]) := by
      intro c hc
      have hcn : c ≠ n := fun h => hnrest (h ▸ hc)
      exact isdir_rmtreeFS.mpr
        ⟨hdirs c (List.mem_cons_of_mem _ hc), hnp_of_ne c hcn⟩
    obtain ⟨r1, r2, r3⟩ := ih
      {s with
        encodings := collect_encodings fs s.folder s.name
        authority := p
        performances := collect_performances
          (rmtreeFS fs (s.performance_dir ++ [n])) s.performance_dir
        scores := collect_scores
          (rmtreeFS fs (s.performance_dir ++ [n])) s.score_dir}
      (rmtreeFS fs (s.performance_dir ++ [n])) p
      hpd hsd hfmt henc' hdp' hds' hnd' hchild' hdirs'
    refine ⟨r1, r2, ?_⟩
    rcases r3 with h | hrest
    · exact Or.inl h
    · subst hrest
      refine Or.inl ?_
      intro x hx
      simp only [clear_go] at hx
      rw [show keys (collect_performances
          (rmtreeFS fs (s.performance_dir ++ [n])) s.performance_dir) =
          (rmtreeFS fs (s.performance_dir ++ [n])).listdir s.performance_dir
        from keys_collect_performances _ _] at hx
      exact absurd ((hchild' x).mp hx) (List.not_mem_nil x)

/-- C9: on a synchronized piece whose performances directory contains only
subdirectories (one per known performance), `clear_performances` succeeds:
afterwards the performances index is empty and the performances directory
has no entries at all, even though each `remove_performance` call re-scans
and reassigns `performances` during the iteration (the loop iterates the
snapshot of keys taken at call time, which Python's reassignment does not
disturb). -/
theorem clear_performances_all (s : PieceState) (fs : FS) (p : FsPath)
    (hpd : s.performance_dir = s.folder ++ ["performances"])
    (hsd : s.score_dir = s.folder ++ ["scores"])
    (hfmt : s.authority_format ∈ AVAILABLE_AUTHORITIES)
    (henc : (collect_encodings fs s.folder s.name).lookup
      s.authority_format = some p)
    (hdp : fs.isdir s.performance_dir)
    (hds : fs.isdir s.score_dir)
    (hnd : (keys s.performances).Nodup)
    (hchild : ∀ x, x ∈ fs.listdir s.performance_dir ↔
      x ∈ keys s.performances)
    (hdirs : ∀ c ∈ keys s.performances,
      fs.isdir (s.performance_dir ++ [c])) :
    (clear_performances s fs).2 = none ∧
    (∀ x, x ∉ FS.listdir (clear_performances s fs).1.2 s.performance_dir) ∧
    (∀ x, x ∉ keys (clear_performances s fs).1.1.performances) := by
  obtain ⟨r1, r2, r3⟩ := clear_go_spec (keys s.performances) s fs p
    hpd hsd hfmt henc hdp hds hnd hchild hdirs
  refine ⟨r1, r2, ?_⟩
  rcases r3 with h | h
  · exact h
  · intro x hx
    unfold clear_performances at hx
    rw [h] at hx
    simp only [clear_go] at hx
    rw [h] at hx
    exact absurd hx (List.not_mem_nil x)



theorem add_performance_overwrite_witness :
    (add_performance sC8 fsC8 "take1" ["tmp", "new.flac"] none false =
      ((sC8, fsC8), some (.performanceExists "bach" "take1"))) ∧
    (add_performance sC8 fsC8 "take1" ["tmp", "new.flac"] none true).2 =
      none ∧
    (add_performance sC8 fsC8 "take1" ["tmp", "new.flac"] none
        true).1.2.isfile
      ["col", "bach", "performances", "take1", "take1.flac"] ∧
    ¬ (add_performance sC8 fsC8 "take1" ["tmp", "new.flac"] none
        true).1.2.isfile
      ["col", "bach", "performances", "take1", "take1.wav"] := by
  have H := add_performance_overwrite sC8 fsC8 "take1" ["tmp", "new.flac"]
    none ["col", "bach", "bach.ly"]
    (by decide) (by decide) (by decide) (by decide) (by decide) (by decide)
    (by decide) (by decide) (by decide) (by decide)
    (by intro m hm; exact absurd hm (by simp))
  refine ⟨H.1, H.2.1, ?_, ?_⟩
  · exact (H.2.2 _).mpr (Or.inl (by decide))
  · intro hf
    rcases (H.2.2 _).mp hf with h | ⟨m, hm, _⟩ | ⟨h1, h2⟩
    · exact absurd h (by decide)
    · exact absurd hm (by simp)
    · exact h2 (by decide)



theorem clear_performances_all_witness :
    (clear_performances sC9 fsC9).2 = none ∧
    "take1" ∉ keys (clear_performances sC9 fsC9).1.1.performances ∧
    "take1" ∉ FS.listdir (clear_performances sC9 fsC9).1.2
      sC9.performance_dir := by
  have H := clear_performances_all sC9 fsC9 ["col", "bach", "bach.ly"]
    (by decide) (by decide) (by decide) (by decide) (by decide) (by decide)
    (by decide)
    (by
      intro x
      constructor
      · intro h
        have h' : x ∈ ["take1", "take2"] := h
        fin_cases h' <;> decide
      · intro h
        have h' : x ∈ ["take1", "take2"] := h
        fin_cases h' <;> decide)
    (by
      intro c hc
      have h' : c ∈ ["take1", "take2"] := hc
      fin_cases h' <;> decide)
  exact ⟨H.1, H.2.2 "take1", H.2.1 "take1"⟩
